import Mathlib

/-! Verification development for the displayed-data export pipeline of the
physique57 insight-hub dashboard (src/hooks/useDisplayedDataExport.ts).
JavaScript strings are embedded as lists of characters, DOM tables as
explicit structures of rows and cells, and the stateful parts (inline-style
mutation, tab-walk collection, the exporting flag) as explicit state
passing. Each definition is translated from the source function of the
same name. -/

namespace DisplayedExport

/-- JavaScript strings are modelled as lists of characters. -/
abbrev Str : Type := List Char

/-- Literal notation helper: a Lean string literal as a `Str`. -/
def str (s : String) : Str := s.toList

/-- Characters removed by JavaScript `String.prototype.trim` (the ASCII
whitespace actually occurring in the DOM texts the exporter reads). -/
def isJsSpace (c : Char) : Bool := c = ' ' || c = '\t' || c = '\n' || c = '\r'

/-- JavaScript `value.trim()`. -/
def trimStr (s : Str) : Str :=
  ((s.dropWhile isJsSpace).reverse.dropWhile isJsSpace).reverse

/-- JavaScript `a || b` on strings: the empty string is falsy. -/
def jsOrStr (a b : Str) : Str := if a.isEmpty then b else a

/-- JavaScript `a || b` where `a` may be `undefined` (optional chaining). -/
def jsOrUndef (a : Option Str) (b : Str) : Str :=
  match a with
  | none => b
  | some s => if s.isEmpty then b else s

/-- JavaScript `n.toString()` for the natural counters the code produces. -/
def natToStr (n : Nat) : Str := (Nat.repr n).toList

/-- JavaScript `Array.prototype.join(sep)`. -/
def joinWith (sep : Str) : List Str → Str
  | [] => []
  | x :: rest => x ++ (rest.map (fun y => sep ++ y)).flatten

/-- The `options` record of `ExportConfig` (the five boolean flags). -/
structure ExportOptions where
  includeHeaders : Bool
  preserveFormatting : Bool
  includeRowNumbers : Bool
  separateSheets : Bool
  includeMetadata : Bool
deriving DecidableEq, Repr

/-- One table cell as the extractor reads it: whether it is a `th` element,
its `textContent`, and its `innerHTML` markup. -/
structure Cell where
  isTh : Bool
  textContent : Str
  innerHTML : Str
deriving DecidableEq, Repr

/-- One `tr` row: its `td`/`th` cells in document order. -/
structure Row where
  cells : List Cell
deriving DecidableEq, Repr

/-- The content of one `table` element: its `tr` rows in document order. -/
structure TableElem where
  rows : List Row
deriving DecidableEq, Repr

/-- A live reference to a table element: `refId` is the reference identity
(two references are the same DOM object exactly when their `refId`s agree),
`elem` the referenced content. -/
structure TableRef where
  refId : Nat
  elem : TableElem
deriving DecidableEq, Repr

/-- The optional `metadata` of `TableData`. -/
structure TableMetadata where
  originalRowCount : Nat
  originalColumnCount : Nat
  exportedAt : Str
deriving DecidableEq, Repr

/-- The `TableData` record produced by `extractTableData`. -/
structure TableData where
  name : Str
  headers : List Str
  rows : List (List Str)
  metadata : Option TableMetadata
deriving DecidableEq, Repr

/-! ## CSV serialization (`escapeCSVValue`, `createCSVContent`, `exportToCSV`) -/

/-- JavaScript `value.replace(/"/g, '""')`: every double quote doubled. -/
def doubleQuotes : Str → Str
  | [] => []
  | c :: rest => if c = '"' then '"' :: '"' :: doubleQuotes rest else c :: doubleQuotes rest

/-- `escapeCSVValue` from the source: quote the value (doubling internal
quotes) when it contains a comma, a double quote or a newline; otherwise
return it unchanged. -/
def escapeCSVValue (value : Str) : Str :=
  if value.contains ',' || value.contains '"' || value.contains '\n' then
    '"' :: (doubleQuotes value ++ ['"'])
  else value

/-- `createCSVContent` from the source: optional header line (only when
`includeHeaders` is set and the headers are non-empty), then one line per
data row, each comma-joined after escaping, all newline-joined. -/
def createCSVContent (td : TableData) (options : ExportOptions) : Str :=
  let lines : List Str :=
    (if options.includeHeaders && td.headers.length > 0 then
      [joinWith [','] (td.headers.map escapeCSVValue)]
    else []) ++ td.rows.map (fun row => joinWith [','] (row.map escapeCSVValue))
  joinWith ['\n'] lines

/-! Standard CSV unquoting, used to state the round-trip half of the
escaping claim: a field wrapped in double quotes is stripped of them and
internal doubled quotes are collapsed; any other field is read as is. -/

/-- Collapse doubled double quotes (the standard CSV un-escaping rule). -/
def undoubleQuotes : Str → Str
  | [] => []
  | [c] => [c]
  | c :: d :: rest =>
      if c = '"' ∧ d = '"' then '"' :: undoubleQuotes rest
      else c :: undoubleQuotes (d :: rest)

/-- Standard CSV field unquoting: strip a surrounding pair of double quotes
and collapse doubled quotes inside; leave an unquoted field unchanged. -/
def csvUnquote : Str → Str
  | [] => []
  | c :: rest =>
      if c = '"' then
        match rest.getLast? with
        | some d => if d = '"' then undoubleQuotes rest.dropLast else c :: rest
        | none => c :: rest
      else c :: rest

theorem undoubleQuotes_doubleQuotes (v : Str) : undoubleQuotes (doubleQuotes v) = v := by
  induction v with
  | nil => rfl
  | cons c rest ih =>
    by_cases hc : c = '"'
    · subst hc
      simp only [doubleQuotes, if_pos rfl]
      cases hrest : doubleQuotes rest with
      | nil =>
        have : rest = [] := by
          cases rest with
          | nil => rfl
          | cons r0 r' =>
            simp only [doubleQuotes] at hrest
            split at hrest <;> simp at hrest
        subst this
        rfl
      | cons d tail =>
        rw [← hrest]
        simpa [undoubleQuotes] using ih
    · simp only [doubleQuotes, if_neg hc]
      cases rest with
      | nil => simp [undoubleQuotes]
      | cons r0 r' =>
        have hne : ∃ d tail, doubleQuotes (r0 :: r') = d :: tail := by
          by_cases h0 : r0 = '"'
          · exact ⟨'"', '"' :: doubleQuotes r', by simp [doubleQuotes, h0]⟩
          · exact ⟨r0, doubleQuotes r', by simp [doubleQuotes, h0]⟩
        obtain ⟨d, tail, hd⟩ := hne
        rw [hd]
        simp only [undoubleQuotes]
        rw [if_neg (show ¬(c = '"' ∧ d = '"') from fun h => hc h.1)]
        rw [← hd, ih]

/-- C3: `escapeCSVValue` quotes a value (wrapping it in double quotes with
internal double quotes doubled) exactly when the value contains a comma, a
double quote or a newline; a value without these characters is emitted
unchanged, and for a value containing them, escaping followed by standard
CSV unquoting yields the original value. -/
theorem escapeCSVValue_quote_iff_roundtrip (v : Str) :
    ((v.contains ',' || v.contains '"' || v.contains '\n') = true →
        escapeCSVValue v = '"' :: (doubleQuotes v ++ ['"']) ∧
        csvUnquote (escapeCSVValue v) = v) ∧
    ((v.contains ',' || v.contains '"' || v.contains '\n') = false →
        escapeCSVValue v = v) := by
  constructor
  · intro h
    have he : escapeCSVValue v = '"' :: (doubleQuotes v ++ ['"']) := by
      unfold escapeCSVValue
      rw [h]
      rfl
    refine ⟨he, ?_⟩
    rw [he]
    have hlast : (doubleQuotes v ++ ['"']).getLast? = some '"' := List.getLast?_concat _
    simp [csvUnquote, hlast, List.dropLast_concat, undoubleQuotes_doubleQuotes]
  · intro h
    unfold escapeCSVValue
    rw [h]
    rfl

/-- C3 witness: the theorem applied at the concrete values `a,b` (quoted and
round-tripped) and `ab` (emitted unchanged). -/
theorem escapeCSVValue_quote_iff_roundtrip_witness :
    csvUnquote (escapeCSVValue (str "a,b")) = str "a,b" ∧
    escapeCSVValue (str "ab") = str "ab" :=
  ⟨((escapeCSVValue_quote_iff_roundtrip (str "a,b")).1 (by decide)).2,
   (escapeCSVValue_quote_iff_roundtrip (str "ab")).2 (by decide)⟩

/-! ## Cell and row extraction (`extractTableData`) -/

/-- Characters matched by the source's regex literal `/[\\$€£]/`: inside
the character class `\\` is an escaped backslash, so the class matches a
literal backslash as well as the three currency symbols. -/
def matchesCurrencyClass (c : Char) : Bool := c = '\\' || c = '$' || c = '€' || c = '£'

/-- Per-cell value from the source's cell loop: the trimmed `textContent`;
when `preserveFormatting` is set, the markup holds one of `$`, `€`, `£`,
and the non-empty trimmed text holds none of them, the first character of
the markup matched by `/[\\$€£]/` is prepended. -/
def cellValue (options : ExportOptions) (cell : Cell) : Str :=
  if options.preserveFormatting then
    let v := trimStr cell.textContent
    if cell.innerHTML.contains '$' || cell.innerHTML.contains '€' || cell.innerHTML.contains '£' then
      let text := trimStr cell.textContent
      if !text.isEmpty && !(text.contains '$') && !(text.contains '€') && !(text.contains '£') then
        match cell.innerHTML.find? matchesCurrencyClass with
        | some m => m :: text
        | none => v
      else v
    else v
  else trimStr cell.textContent

/-- The cell values of one row (the source's `cells.forEach` pushes). -/
def rowValues (options : ExportOptions) (row : Row) : List Str :=
  row.cells.map (cellValue options)

/-- The source's `row.querySelector('th')` test: the row holds a header cell. -/
def rowHasTh (row : Row) : Bool := row.cells.any (fun c => c.isTh)

/-- The source's row loop past the header decision: each row's values,
with the 1-based sequence number `extractedData.length + 1` prepended when
`includeRowNumbers` is set, appended to `extractedData` in order. -/
def processDataRows (options : ExportOptions) : List Row → List (List Str) → List (List Str)
  | [], extracted => extracted
  | row :: rest, extracted =>
      let rowData := rowValues options row
      let rowData' :=
        if options.includeRowNumbers then natToStr (extracted.length + 1) :: rowData
        else rowData
      processDataRows options rest (extracted ++ [rowData'])

/-- The source's `rows.forEach` split on `rowIndex === 0`: the first row
becomes the headers when it holds a `th` cell or `includeHeaders` is set,
otherwise it is processed as the first data row. -/
def extractRows (options : ExportOptions) : List Row → List Str × List (List Str)
  | [] => ([], [])
  | first :: rest =>
      if rowHasTh first || options.includeHeaders then
        (rowValues options first, processDataRows options rest [])
      else
        ([], processDataRows options (first :: rest) [])

/-- The pure result of `extractTableData` (its `name` left blank for the
caller): the row loop's headers and data rows, a `#` label prepended to a
non-empty header row when `includeRowNumbers` is set, and the optional
metadata. `now` stands for `format(new Date(), 'PPP p')`. -/
def extractTableCore (tbl : TableElem) (options : ExportOptions) (now : Str) : TableData :=
  let hd := extractRows options tbl.rows
  let headers := if options.includeRowNumbers && hd.1.length > 0 then str "#" :: hd.1 else hd.1
  { name := [],
    headers := headers,
    rows := hd.2,
    metadata :=
      if options.includeMetadata then
        some { originalRowCount := tbl.rows.length,
               originalColumnCount := headers.length,
               exportedAt := now }
      else none }

/-- The inline-style and scroll state of the scrollable container found by
`table.closest('.overflow-x-auto, .overflow-auto, .overflow-scroll') ||
table.parentElement`. An unset inline `overflow` reads as the empty
string, as in the DOM. -/
structure ContainerState where
  overflow : Str
  scrollLeft : Nat
deriving DecidableEq, Repr

/-- The mutable UI state touched by `extractTableData`: the table's inline
`width` and `max-width` styles and the container's state (`none` when the
table has no container element at all). -/
structure UIState where
  tableWidth : Str
  tableMaxWidth : Str
  container : Option ContainerState
deriving DecidableEq, Repr

/-- `extractTableData` with its `try`/`finally` state handling: record the
four original values (`tableContainer?.scrollLeft || 0`, the two table
styles, `tableContainer?.style.overflow`), apply the temporary expansion
(overflow `visible`, scroll offset `0`, width `max-content`, max-width
`none`), run the body — `bodyThrows` abstracts any extraction step
throwing partway through — and restore the recorded values unconditionally
in the `finally` block, with `originalOverflow || ''` for the overflow. -/
def extractTableData (tbl : TableElem) (options : ExportOptions) (now : Str)
    (st : UIState) (bodyThrows : Bool) : Except Unit TableData × UIState :=
  let originalScrollLeft : Nat :=
    match st.container with
    | none => 0
    | some c => if c.scrollLeft = 0 then 0 else c.scrollLeft
  let originalWidth := st.tableWidth
  let originalMaxWidth := st.tableMaxWidth
  let originalOverflow : Option Str := st.container.map (fun c => c.overflow)
  let stBody : UIState :=
    { tableWidth := str "max-content",
      tableMaxWidth := str "none",
      container := st.container.map (fun _ =>
        { overflow := str "visible", scrollLeft := 0 }) }
  let result : Except Unit TableData :=
    if bodyThrows then Except.error () else Except.ok (extractTableCore tbl options now)
  let stFinal : UIState :=
    { tableWidth := originalWidth,
      tableMaxWidth := originalMaxWidth,
      container := stBody.container.map (fun _ =>
        { overflow := jsOrUndef originalOverflow [], scrollLeft := originalScrollLeft }) }
  (result, stFinal)

/-- C1: on every exit path of `extractTableData` — the body returning or
throwing — the table's inline width and max-width styles, the container's
overflow style (the empty string standing for an unset overflow) and the
container's scroll offset all equal their pre-extraction values: the final
UI state is exactly the initial one. -/
theorem extractTableData_restores_state (tbl : TableElem) (options : ExportOptions)
    (now : Str) (st : UIState) (bodyThrows : Bool) :
    (extractTableData tbl options now st bodyThrows).2 = st := by
  cases st with
  | mk w mw cont =>
    cases cont with
    | none => simp [extractTableData]
    | some c =>
      cases c with
      | mk ov sl =>
        have h1 : jsOrUndef (some ov) [] = ov := by
          cases ov with
          | nil => rfl
          | cons a l => rfl
        have h2 : (if sl = 0 then 0 else sl) = sl := by
          by_cases h : sl = 0
          · simp [h]
          · simp [h]
        simp [extractTableData, h1, h2]

/-- A cell whose markup holds a currency symbol only in attribute text
(`alt="€"`), a Windows-style path with a backslash earlier in the markup,
and a plain numeric `textContent`. -/
def backslashCell : Cell :=
  { isTh := false,
    textContent := str "100",
    innerHTML := str "<img src=\"icons\\euro.svg\" alt=\"€\">100" }

/-- The export options with `preserveFormatting` set. -/
def preserveOptions : ExportOptions :=
  { includeHeaders := true, preserveFormatting := true, includeRowNumbers := false,
    separateSheets := false, includeMetadata := false }

/-- C8: evaluation of the cell extraction at the failing input. The markup
holds `€` only in an attribute while the trimmed text `100` holds no
currency symbol, so the spec calls for `€100`; the code's regex
`/[\\$€£]/` also matches the literal backslash of `icons\euro.svg`, which
occurs first in the markup, so the code prepends a backslash instead. -/
theorem cellValue_backslash_bug :
    cellValue preserveOptions backslashCell = '\\' :: str "100" ∧
    cellValue preserveOptions backslashCell ≠ '€' :: str "100" := by
  decide

/-! ## Row numbering (the amended row loop, claim C7) -/

/-- Data rows with their 1-based positions, starting at `n`, prepended as
decimal numerals (the specification-side description of row numbering). -/
def numberRows : Nat → List (List Str) → List (List Str)
  | _, [] => []
  | n, r :: rs => (natToStr n :: r) :: numberRows (n + 1) rs

theorem cellValue_rowNumbers_irrelevant (o : ExportOptions) (b : Bool) (c : Cell) :
    cellValue { o with includeRowNumbers := b } c = cellValue o c := rfl

theorem rowValues_rowNumbers_irrelevant (o : ExportOptions) (b : Bool) (row : Row) :
    rowValues { o with includeRowNumbers := b } row = rowValues o row := rfl

theorem processDataRows_no_numbers (o : ExportOptions) (ho : o.includeRowNumbers = false)
    (rows : List Row) :
    ∀ acc, processDataRows o rows acc = acc ++ rows.map (rowValues o) := by
  induction rows with
  | nil => intro acc; simp [processDataRows]
  | cons row rest ih =>
    intro acc
    simp only [processDataRows, ho, List.map_cons]
    rw [ih]
    simp

theorem processDataRows_numbers (o : ExportOptions) (ho : o.includeRowNumbers = true)
    (rows : List Row) :
    ∀ acc, processDataRows o rows acc =
      acc ++ numberRows (acc.length + 1) (rows.map (rowValues o)) := by
  induction rows with
  | nil => intro acc; simp [processDataRows, numberRows]
  | cons row rest ih =>
    intro acc
    simp only [processDataRows, ho, List.map_cons, numberRows]
    rw [ih]
    simp [List.append_assoc, List.length_append, Nat.add_assoc]

theorem rowValues_fun_rowNumbers (o : ExportOptions) (b : Bool) :
    rowValues { o with includeRowNumbers := b } = rowValues o := rfl

theorem extractRows_numbers (o : ExportOptions) (ho : o.includeRowNumbers = true)
    (rows : List Row) :
    (extractRows o rows).1 = (extractRows { o with includeRowNumbers := false } rows).1 ∧
    (extractRows o rows).2 =
      numberRows 1 (extractRows { o with includeRowNumbers := false } rows).2 := by
  have hF : ({ o with includeRowNumbers := false } : ExportOptions).includeRowNumbers
      = false := rfl
  have hih : ({ o with includeRowNumbers := false } : ExportOptions).includeHeaders
      = o.includeHeaders := rfl
  cases rows with
  | nil => exact ⟨rfl, rfl⟩
  | cons first rest =>
    cases hcond : (rowHasTh first || o.includeHeaders) with
    | true =>
      constructor
      · simp [extractRows, hih, hcond, rowValues_fun_rowNumbers]
      · simp only [extractRows, hih, hcond, if_pos]
        rw [processDataRows_numbers o ho rest []]
        rw [processDataRows_no_numbers _ hF rest []]
        simp [rowValues_fun_rowNumbers]
    | false =>
      constructor
      · simp [extractRows, hih, hcond]
      · simp only [extractRows, hih, hcond, if_neg]
        rw [processDataRows_numbers o ho (first :: rest) []]
        rw [processDataRows_no_numbers _ hF (first :: rest) []]
        simp [rowValues_fun_rowNumbers]

/-- C7: with `includeRowNumbers` set, the headers are `#` prepended to the
headers of the numbering-free extraction whenever a header row exists, no
`#` label is added when no header row exists, and the data rows are the
numbering-free data rows with their 1-based sequence number (counting data
rows only) prepended as a decimal numeral. -/
theorem extractTableCore_row_numbers (tbl : TableElem) (options : ExportOptions)
    (now : Str) (h : options.includeRowNumbers = true) :
    ((extractTableCore tbl { options with includeRowNumbers := false } now).headers ≠ [] →
      (extractTableCore tbl options now).headers =
        str "#" ::
          (extractTableCore tbl { options with includeRowNumbers := false } now).headers) ∧
    ((extractTableCore tbl { options with includeRowNumbers := false } now).headers = [] →
      (extractTableCore tbl options now).headers = []) ∧
    (extractTableCore tbl options now).rows =
      numberRows 1 (extractTableCore tbl { options with includeRowNumbers := false } now).rows := by
  obtain ⟨h1, h2⟩ := extractRows_numbers options h tbl.rows
  have hF : ({ options with includeRowNumbers := false } : ExportOptions).includeRowNumbers
      = false := rfl
  refine ⟨?_, ?_, ?_⟩
  · intro hne
    have hne' : (extractRows { options with includeRowNumbers := false } tbl.rows).1 ≠ [] := by
      simpa [extractTableCore, hF] using hne
    have hlen : (extractRows options tbl.rows).1.length > 0 := by
      rw [h1]
      exact List.length_pos.mpr hne'
    simp [extractTableCore, hF, h, hlen, Nat.pos_iff_ne_zero, h1]
    exact hne'
  · intro hnil
    have hnil' : (extractRows { options with includeRowNumbers := false } tbl.rows).1 = [] := by
      simpa [extractTableCore, hF] using hnil
    simp [extractTableCore, hF, h, h1, hnil']
  · simpa [extractTableCore, hF] using h2

/-- A header row and two data rows, for the row-numbering witness. -/
def numberedTable : TableElem :=
  ⟨[⟨[⟨true, str "Name", str "Name"⟩]⟩,
    ⟨[⟨false, str "Alice", str "Alice"⟩]⟩,
    ⟨[⟨false, str "Bob", str "Bob"⟩]⟩]⟩

/-- Options with `includeRowNumbers` set. -/
def numberedOptions : ExportOptions :=
  { includeHeaders := true, preserveFormatting := false, includeRowNumbers := true,
    separateSheets := false, includeMetadata := false }

/-- C7 witness: the theorem applied to a concrete three-row table. -/
theorem extractTableCore_row_numbers_witness :
    (extractTableCore numberedTable numberedOptions []).rows =
      numberRows 1 (extractTableCore numberedTable
        { numberedOptions with includeRowNumbers := false } []).rows ∧
    (extractTableCore numberedTable numberedOptions []).headers =
      str "#" :: (extractTableCore numberedTable
        { numberedOptions with includeRowNumbers := false } []).headers :=
  ⟨(extractTableCore_row_numbers numberedTable numberedOptions [] rfl).2.2,
   (extractTableCore_row_numbers numberedTable numberedOptions [] rfl).1 (by decide)⟩

/-- C10: for a table whose first row holds a `th` cell, extraction with
`includeHeaders = false` still captures that first row as the headers
sequence (never as a data row: the data rows come from the remaining rows
only), and `createCSVContent` emits no header line, so the produced CSV is
exactly the newline-join of the data-row lines. -/
theorem headers_omitted_when_disabled (first : Row) (rest : List Row)
    (options : ExportOptions) (now : Str)
    (hh : options.includeHeaders = false) (hth : rowHasTh first = true) :
    (extractTableCore ⟨first :: rest⟩ options now).headers =
      (if options.includeRowNumbers then str "#" :: rowValues options first
       else rowValues options first) ∧
    (extractTableCore ⟨first :: rest⟩ options now).rows =
      processDataRows options rest [] ∧
    createCSVContent (extractTableCore ⟨first :: rest⟩ options now) options =
      joinWith ['\n']
        ((extractTableCore ⟨first :: rest⟩ options now).rows.map
          (fun row => joinWith [','] (row.map escapeCSVValue))) := by
  have hcells : first.cells ≠ [] := by
    intro hnil
    rw [rowHasTh, hnil] at hth
    simp at hth
  have hlen : (rowValues options first).length > 0 := by
    rw [rowValues, List.length_map]
    exact List.length_pos.mpr hcells
  have hcond : (rowHasTh first || options.includeHeaders) = true := by
    simp [hth]
  have hd : extractRows options (first :: rest) =
      (rowValues options first, processDataRows options rest []) := by
    simp [extractRows, hcond]
  refine ⟨?_, ?_, ?_⟩
  · cases hrn : options.includeRowNumbers with
    | true => simp [extractTableCore, hd, hrn, hlen, Nat.pos_iff_ne_zero]
    | false => simp [extractTableCore, hd, hrn]
  · simp [extractTableCore, hd]
  · simp [createCSVContent, hh]

/-- A first row holding `th` cells, for the header-omission witness. -/
def omittedFirst : Row :=
  ⟨[⟨true, str "Name", str "Name"⟩, ⟨true, str "Revenue", str "Revenue"⟩]⟩

/-- One data row for the header-omission witness. -/
def omittedRest : List Row :=
  [⟨[⟨false, str "Alice", str "Alice"⟩, ⟨false, str "1200", str "1200"⟩]⟩]

/-- Options with every flag cleared, in particular `includeHeaders`. -/
def omittedOptions : ExportOptions :=
  { includeHeaders := false, preserveFormatting := false, includeRowNumbers := false,
    separateSheets := false, includeMetadata := false }

/-- C10 witness: the theorem applied to a concrete table whose first row
holds `th` cells, with `includeHeaders = false`. -/
theorem headers_omitted_when_disabled_witness :
    (extractTableCore ⟨omittedFirst :: omittedRest⟩ omittedOptions []).rows =
      processDataRows omittedOptions omittedRest [] ∧
    createCSVContent (extractTableCore ⟨omittedFirst :: omittedRest⟩ omittedOptions [])
        omittedOptions =
      joinWith ['\n']
        ((extractTableCore ⟨omittedFirst :: omittedRest⟩ omittedOptions []).rows.map
          (fun row => joinWith [','] (row.map escapeCSVValue))) :=
  ⟨(headers_omitted_when_disabled omittedFirst omittedRest omittedOptions [] rfl
      (by decide)).2.1,
   (headers_omitted_when_disabled omittedFirst omittedRest omittedOptions [] rfl
      (by decide)).2.2⟩

/-! ## Table discovery (`scanForTables`) -/

/-- A preceding sibling element as the naming walk reads it: its `tagName`
and its `textContent`. -/
structure Sib where
  tagName : Str
  textContent : Str
deriving DecidableEq, Repr

/-- One `table` element as `scanForTables` sees it: the underlying
reference with its rows, the optional `caption` text, the preceding
sibling elements (nearest first, as `previousElementSibling` walks them),
and the visibility inputs (`offsetParent` non-null, computed `display`,
computed `visibility`). -/
structure ScanTable where
  ref : TableRef
  caption : Option Str
  prevSiblings : List Sib
  hasOffsetParent : Bool
  displayStyle : Str
  visibilityStyle : Str
deriving DecidableEq, Repr

/-- The `DisplayedTable` record the scanner produces. -/
structure DisplayedTable where
  id : Str
  name : Str
  element : Option TableRef
  rowCount : Nat
  columnCount : Nat
  isVisible : Bool
deriving DecidableEq, Repr

/-- The source's `current.tagName.match(/^H[1-6]$/)` test. -/
def isHeadingTag (tag : Str) : Bool :=
  tag == str "H1" || tag == str "H2" || tag == str "H3" ||
  tag == str "H4" || tag == str "H5" || tag == str "H6"

/-- The source's snippet condition: non-empty trimmed text of fewer than
100 characters. -/
def isShortText (t : Str) : Bool := !t.isEmpty && decide (t.length < 100)

/-- The source's backward sibling `while` loop (`searchCount < 5`): stop at
the first heading, returning its trimmed text; otherwise accumulate the
qualifying short snippets in walk order (nearest sibling first). -/
def nameWalk : List Sib → Nat → List Str → Option Str × List Str
  | _, 0, acc => (none, acc)
  | [], _ + 1, acc => (none, acc)
  | s :: rest, fuel + 1, acc =>
      if isHeadingTag s.tagName then (some (trimStr s.textContent), acc)
      else
        nameWalk rest fuel
          (if isShortText (trimStr s.textContent) then acc ++ [trimStr s.textContent] else acc)

/-- The positional fallback `'Table ' + (index + 1)`. -/
def defaultTableName (index : Nat) : Str := str "Table " ++ natToStr (index + 1)

/-- The naming logic of `scanForTables` for one table: caption (with JS
`|| tableName` fallback), else the sibling walk for a heading, then the
snippet override `previousElements[previousElements.length - 1]` applied
when the name still starts with `Table ` and snippets were collected. -/
def tableName (t : ScanTable) (index : Nat) : Str :=
  let fallback := defaultTableName index
  match t.caption with
  | some c => jsOrStr (trimStr c) fallback
  | none =>
      let wr := nameWalk t.prevSiblings 5 []
      let nm :=
        match wr.1 with
        | some ht => jsOrStr ht fallback
        | none => fallback
      if (str "Table ").isPrefixOf nm && wr.2.length > 0 then wr.2.getLastD nm else nm

/-- `scanForTables` from the source: one `DisplayedTable` per table in
document order, with the positional id (`nowMs` standing for
`Date.now()`), the naming chain, row/column counts and the visibility
test. -/
def scanForTables (container : List ScanTable) (nowMs : Nat) : List DisplayedTable :=
  container.enum.map (fun p =>
    let index := p.1
    let t := p.2
    let trs := t.ref.elem.rows
    { id := str "table-" ++ natToStr index ++ ['-'] ++ natToStr nowMs,
      name := tableName t index,
      element := some t.ref,
      rowCount := trs.length,
      columnCount :=
        match trs with
        | [] => 0
        | firstRow :: _ => firstRow.cells.length,
      isVisible := t.hasOffsetParent
        && !(t.displayStyle == str "none")
        && !(t.visibilityStyle == str "hidden") })

/-- The short snippets of a sibling run, in walk order. -/
def snippetsOf (sibs : List Sib) : List Str :=
  (sibs.map (fun s => trimStr s.textContent)).filter isShortText

theorem nameWalk_spec (sibs : List Sib) : ∀ (fuel : Nat) (acc : List Str),
    nameWalk sibs fuel acc =
      ((match (sibs.take fuel).dropWhile (fun s => !isHeadingTag s.tagName) with
        | [] => none
        | h :: _ => some (trimStr h.textContent)),
       acc ++ snippetsOf ((sibs.take fuel).takeWhile (fun s => !isHeadingTag s.tagName))) := by
  induction sibs with
  | nil =>
    intro fuel acc
    cases fuel <;> simp [nameWalk, snippetsOf]
  | cons s rest ih =>
    intro fuel acc
    cases fuel with
    | zero => simp [nameWalk, snippetsOf]
    | succ f =>
      cases hh : isHeadingTag s.tagName with
      | true => simp [nameWalk, hh, snippetsOf]
      | false =>
        simp only [nameWalk, hh, Bool.false_eq_true, if_neg, List.take_succ_cons]
        rw [ih f _]
        cases hs : isShortText (trimStr s.textContent) with
        | true =>
          simp [hh, hs, snippetsOf, List.takeWhile_cons, List.dropWhile_cons]
        | false =>
          simp [hh, hs, snippetsOf, List.takeWhile_cons, List.dropWhile_cons]

/-- Specification-side restatement of the amended naming chain (C6 as
corrected): (1) a table with a caption gets the caption's non-empty
trimmed text, or the positional fallback when the caption text trims to
empty — the sibling walk is skipped entirely; (2) a table without a
caption takes the first heading (H1–H6) among up to 5 preceding siblings,
using its trimmed text when non-empty and the positional fallback when
empty; (3) when the resulting name still starts with `Table ` and a
pre-heading sibling in the window has non-empty trimmed text shorter than
100 characters, the name is the last-collected such snippet — the one
farthest from the table within the window; (4) otherwise the positional
fallback `Table N` with N the 1-based scan position. -/
def nameSpec (t : ScanTable) (index : Nat) : Str :=
  let fallback := defaultTableName index
  match t.caption with
  | some c => if (trimStr c).isEmpty then fallback else trimStr c
  | none =>
      let window := t.prevSiblings.take 5
      let scanned := window.takeWhile (fun s => !isHeadingTag s.tagName)
      let nm :=
        match window.dropWhile (fun s => !isHeadingTag s.tagName) with
        | [] => fallback
        | h :: _ =>
            if (trimStr h.textContent).isEmpty then fallback else trimStr h.textContent
      let snips := snippetsOf scanned
      if (str "Table ").isPrefixOf nm && snips.length > 0 then snips.getLastD nm else nm

theorem tableName_eq_nameSpec (t : ScanTable) (index : Nat) :
    tableName t index = nameSpec t index := by
  cases hc : t.caption with
  | some c => simp [tableName, nameSpec, hc, jsOrStr]
  | none =>
    simp only [tableName, nameSpec, hc]
    rw [nameWalk_spec]
    cases hd : (t.prevSiblings.take 5).dropWhile (fun s => !isHeadingTag s.tagName) with
    | nil => simp [jsOrStr]
    | cons h rest => simp [jsOrStr]

/-- A table with no caption, preceded (nearest first) by a `div` with text
`B` and then a `div` with text `A`, both short, with no heading. -/
def snippetTable : ScanTable :=
  { ref := ⟨0, ⟨[⟨[⟨false, str "x", str "x"⟩]⟩]⟩⟩,
    caption := none,
    prevSiblings := [⟨str "DIV", str "B"⟩, ⟨str "DIV", str "A"⟩],
    hasOffsetParent := true,
    displayStyle := str "block",
    visibilityStyle := str "visible" }

/-- C6 counterexample: for a table preceded by short text siblings `B`
(nearest) and `A` (farthest), the claim's rule (3) names the table after
the snippet closest to the table, `B`; the scanner names it `A` — the
last-collected snippet is the farthest qualifying sibling, because the
walk pushes nearest-first and the code takes the array's last element. -/
theorem scanForTables_nearest_snippet_false :
    (scanForTables [snippetTable] 0).map (fun t => t.name) = [str "A"] ∧
    ¬((scanForTables [snippetTable] 0).map (fun t => t.name) = [str "B"]) := by
  decide

/-- C6 (amended): every name assigned by `scanForTables` follows the
amended priority chain `nameSpec`: caption text when the caption trims
non-empty (positional fallback when it trims empty, skipping the sibling
walk); else the first heading within 5 preceding siblings, its text when
non-empty; else, when the name still starts with `Table ` and a
pre-heading sibling in the window carries short non-empty text, the
farthest such snippet from the table; else `Table N` (N the 1-based
position). -/
theorem scanForTables_naming_amended (container : List ScanTable) (nowMs : Nat) :
    (scanForTables container nowMs).map (fun t => t.name) =
      container.enum.map (fun p => nameSpec p.2 p.1) := by
  simp [scanForTables, List.map_map, tableName_eq_nameSpec]

/-! ## Tab-aware collection (`scanForTablesIncludingSubTabs`)

The collector activates tab triggers, waits for rendering, and calls its
`collectVisible` helper against the document state reached after each
activation, then against the restored state. The timing and clicking are
not translatable; what is, is the sequence of `collectVisible` calls over
scan snapshots of the document. A phase below is one such call: the
optional name prefix passed and the tables visible at that moment. The
claims quantify over all phase sequences, so they cover both source
variants (the flat walk of the unnamed module and the recursive walk of
the hooks file), whatever order of snapshots the tab walk produces. -/

/-- The renaming the collector applies before pushing a table: prefix the
name (`prefix ? prefix + em-dash + name : name`, with the JS-falsy empty
prefix ignored), mark it visible at scan time, and suffix the id. -/
def prefixedTable (pfx : Option Str) (t : DisplayedTable) : DisplayedTable :=
  let pfxTruthy : Option Str :=
    match pfx with
    | some p => if p.isEmpty then none else some p
    | none => none
  { t with
    name :=
      match pfxTruthy with
      | some p => p ++ str " — " ++ t.name
      | none => t.name,
    isVisible := true,
    id := t.id ++ ['-'] ++
      (match pfxTruthy with
       | some p => p
       | none => str "active") }

theorem prefixedTable_element (pfx : Option Str) (t : DisplayedTable) :
    (prefixedTable pfx t).element = t.element := rfl

/-- One step of the collector's `found.forEach`: skip a table with no
element or one whose reference is already in `seen`; otherwise add the
reference to `seen` and push the renamed table. -/
def collectStep (pfx : Option Str) (acc : List Nat × List DisplayedTable)
    (t : DisplayedTable) : List Nat × List DisplayedTable :=
  match t.element with
  | none => acc
  | some r =>
      if acc.1.contains r.refId then acc
      else (r.refId :: acc.1, acc.2 ++ [prefixedTable pfx t])

/-- `collectVisible` from the source: scan the search root, keep the
visible tables with at least one row, and fold them through the dedup
step. -/
def collectVisible (acc : List Nat × List DisplayedTable) (pfx : Option Str)
    (container : List ScanTable) (nowMs : Nat) : List Nat × List DisplayedTable :=
  ((scanForTables container nowMs).filter
    (fun t => t.isVisible && decide (t.rowCount > 0))).foldl (collectStep pfx) acc

/-- `scanForTablesIncludingSubTabs` over its sequence of collection
phases: starting from an empty `seen` set and an empty `collected` list,
run `collectVisible` once per phase and return the collected tables. -/
def scanForTablesIncludingSubTabs (phases : List (Option Str × List ScanTable))
    (nowMs : Nat) : List DisplayedTable :=
  (phases.foldl (fun acc ph => collectVisible acc ph.1 ph.2 nowMs)
    (([], []) : List Nat × List DisplayedTable)).2

/-- The reference identities of the collected tables' elements. -/
def collectedIds (l : List DisplayedTable) : List Nat :=
  l.filterMap (fun t => t.element.map (fun r => r.refId))

/-- The collector's invariant: the collected references are pairwise
distinct and `seen` holds exactly the collected references. -/
def SeenInv (acc : List Nat × List DisplayedTable) : Prop :=
  (collectedIds acc.2).Nodup ∧ ∀ x : Nat, x ∈ acc.1 ↔ x ∈ collectedIds acc.2

theorem collectedIds_append_one (l : List DisplayedTable) (pfx : Option Str)
    (t : DisplayedTable) (r : TableRef) (ht : t.element = some r) :
    collectedIds (l ++ [prefixedTable pfx t]) = collectedIds l ++ [r.refId] := by
  simp [collectedIds, List.filterMap_append, prefixedTable_element, ht]

theorem collectStep_inv (pfx : Option Str) (t : DisplayedTable)
    {acc : List Nat × List DisplayedTable} (h : SeenInv acc) :
    SeenInv (collectStep pfx acc t) := by
  obtain ⟨hnd, hiff⟩ := h
  cases ht : t.element with
  | none =>
    have hred : collectStep pfx acc t = acc := by simp [collectStep, ht]
    rw [hred]
    exact ⟨hnd, hiff⟩
  | some r =>
    by_cases hcm : r.refId ∈ acc.1
    · have hred : collectStep pfx acc t = acc := by simp [collectStep, ht, hcm]
      rw [hred]
      exact ⟨hnd, hiff⟩
    · have hnotmem : r.refId ∉ collectedIds acc.2 := fun hm => hcm ((hiff r.refId).mpr hm)
      have hred : collectStep pfx acc t =
          (r.refId :: acc.1, acc.2 ++ [prefixedTable pfx t]) := by
        simp [collectStep, ht, hcm]
      rw [hred]
      refine ⟨?_, ?_⟩
      · show (collectedIds (acc.2 ++ [prefixedTable pfx t])).Nodup
        rw [collectedIds_append_one acc.2 pfx t r ht]
        simpa [List.nodup_append] using ⟨hnd, hnotmem⟩
      · intro x
        show x ∈ r.refId :: acc.1 ↔ x ∈ collectedIds (acc.2 ++ [prefixedTable pfx t])
        rw [collectedIds_append_one acc.2 pfx t r ht]
        simp only [List.mem_cons, List.mem_append, List.mem_singleton, hiff x]
        tauto

theorem collectStep_seen_mono (pfx : Option Str) (t : DisplayedTable)
    (acc : List Nat × List DisplayedTable) : acc.1 ⊆ (collectStep pfx acc t).1 := by
  cases ht : t.element with
  | none =>
    have hred : collectStep pfx acc t = acc := by simp [collectStep, ht]
    rw [hred]
    exact fun x hx => hx
  | some r =>
    by_cases hcm : r.refId ∈ acc.1
    · have hred : collectStep pfx acc t = acc := by simp [collectStep, ht, hcm]
      rw [hred]
      exact fun x hx => hx
    · have hred : collectStep pfx acc t =
          (r.refId :: acc.1, acc.2 ++ [prefixedTable pfx t]) := by
        simp [collectStep, ht, hcm]
      rw [hred]
      exact fun x hx => List.mem_cons_of_mem _ hx

theorem collectFold_inv (pfx : Option Str) (found : List DisplayedTable) :
    ∀ {acc : List Nat × List DisplayedTable}, SeenInv acc →
      SeenInv (found.foldl (collectStep pfx) acc) := by
  induction found with
  | nil => intro acc h; exact h
  | cons a rest ih => intro acc h; exact ih (collectStep_inv pfx a h)

theorem collectFold_seen_mono (pfx : Option Str) (found : List DisplayedTable) :
    ∀ (acc : List Nat × List DisplayedTable),
      acc.1 ⊆ (found.foldl (collectStep pfx) acc).1 := by
  induction found with
  | nil => intro acc; exact fun x hx => hx
  | cons a rest ih =>
    intro acc
    exact fun x hx => ih (collectStep pfx acc a) (collectStep_seen_mono pfx a acc hx)

theorem collectFold_mem (pfx : Option Str) (found : List DisplayedTable)
    {t : DisplayedTable} {r : TableRef} (ht : t ∈ found) (he : t.element = some r) :
    ∀ (acc : List Nat × List DisplayedTable),
      r.refId ∈ (found.foldl (collectStep pfx) acc).1 := by
  induction found with
  | nil => cases ht
  | cons a rest ih =>
    intro acc
    rcases List.mem_cons.mp ht with rfl | hmem
    · apply collectFold_seen_mono pfx rest (collectStep pfx acc t)
      by_cases hcm : r.refId ∈ acc.1
      · have hred : collectStep pfx acc t = acc := by simp [collectStep, he, hcm]
        rw [hred]
        exact hcm
      · have hred : collectStep pfx acc t =
            (r.refId :: acc.1, acc.2 ++ [prefixedTable pfx t]) := by
          simp [collectStep, he, hcm]
        rw [hred]
        exact List.mem_cons_self _ _
    · exact ih hmem (collectStep pfx acc a)

theorem phasesFold_inv (nowMs : Nat) (phases : List (Option Str × List ScanTable)) :
    ∀ {acc : List Nat × List DisplayedTable}, SeenInv acc →
      SeenInv (phases.foldl (fun acc q => collectVisible acc q.1 q.2 nowMs) acc) := by
  induction phases with
  | nil => intro acc h; exact h
  | cons q rest ih => intro acc h; exact ih (collectFold_inv q.1 _ h)

theorem phasesFold_seen_mono (nowMs : Nat) (phases : List (Option Str × List ScanTable)) :
    ∀ (acc : List Nat × List DisplayedTable),
      acc.1 ⊆ (phases.foldl (fun acc q => collectVisible acc q.1 q.2 nowMs) acc).1 := by
  induction phases with
  | nil => intro acc; exact fun x hx => hx
  | cons q rest ih =>
    intro acc x hx
    exact ih (collectVisible acc q.1 q.2 nowMs) (collectFold_seen_mono q.1 _ acc hx)

theorem phasesFold_mem (nowMs : Nat) (phases : List (Option Str × List ScanTable))
    {ph : Option Str × List ScanTable} (hph : ph ∈ phases)
    {dt : DisplayedTable} {r : TableRef}
    (hdt : dt ∈ (scanForTables ph.2 nowMs).filter
      (fun t => t.isVisible && decide (t.rowCount > 0)))
    (he : dt.element = some r) :
    ∀ acc, r.refId ∈ (phases.foldl (fun acc q => collectVisible acc q.1 q.2 nowMs) acc).1 := by
  induction phases with
  | nil => cases hph
  | cons q rest ih =>
    intro acc
    rcases List.mem_cons.mp hph with rfl | hmem
    · apply phasesFold_seen_mono nowMs rest (collectVisible acc ph.1 ph.2 nowMs)
      exact collectFold_mem ph.1 _ hdt he acc
    · exact ih hmem (collectVisible acc q.1 q.2 nowMs)

theorem exists_enum_pair {α : Type} (l : List α) (x : α) (h : x ∈ l) :
    ∃ p ∈ l.enum, p.2 = x := by
  have hx : x ∈ l.enum.map Prod.snd := by
    rw [List.enum_map_snd]
    exact h
  obtain ⟨p, hp, hpx⟩ := List.mem_map.mp hx
  exact ⟨p, hp, hpx⟩

theorem mem_scanForTables_of_mem (container : List ScanTable) (nowMs : Nat)
    {st : ScanTable} (h : st ∈ container) :
    ∃ dt ∈ scanForTables container nowMs,
      dt.element = some st.ref ∧
      dt.rowCount = st.ref.elem.rows.length ∧
      dt.isVisible = (st.hasOffsetParent && !(st.displayStyle == str "none")
        && !(st.visibilityStyle == str "hidden")) := by
  obtain ⟨p, hp, hp2⟩ := exists_enum_pair container st h
  obtain ⟨i, pst⟩ := p
  cases hp2
  exact ⟨_, List.mem_map_of_mem _ hp, rfl, rfl, rfl⟩

/-- C2: within one completed run of `scanForTablesIncludingSubTabs` (one
`collectVisible` pass per phase of the tab walk, the final restored-state
pass included), no two returned `DiscoveredTable` entries reference the
same underlying table element, and a table that is visible and non-empty
in at least one phase — e.g. an identical table structure shared by two
tab panels — yields exactly one entry. -/
theorem scanForTablesIncludingSubTabs_dedup
    (phases : List (Option Str × List ScanTable)) (nowMs : Nat) (e : Nat) :
    (collectedIds (scanForTablesIncludingSubTabs phases nowMs)).Nodup ∧
    ((∃ ph ∈ phases, ∃ st ∈ ph.2, st.ref.refId = e ∧ st.hasOffsetParent = true ∧
        st.displayStyle ≠ str "none" ∧ st.visibilityStyle ≠ str "hidden" ∧
        st.ref.elem.rows ≠ []) →
      (collectedIds (scanForTablesIncludingSubTabs phases nowMs)).count e = 1) := by
  have hinit : SeenInv (([], []) : List Nat × List DisplayedTable) := by
    refine ⟨List.nodup_nil, ?_⟩
    intro x
    simp [collectedIds]
  have hinv := phasesFold_inv nowMs phases hinit
  refine ⟨hinv.1, ?_⟩
  intro hex
  obtain ⟨ph, hph, st, hst, hrefid, hoff, hdisp, hvisib, hrows⟩ := hex
  obtain ⟨dt, hdtmem, hel, hrc, hvis⟩ := mem_scanForTables_of_mem ph.2 nowMs hst
  have h1 : (st.displayStyle == str "none") = false := beq_eq_false_iff_ne.mpr hdisp
  have h2 : (st.visibilityStyle == str "hidden") = false := beq_eq_false_iff_ne.mpr hvisib
  have h3 : decide (st.ref.elem.rows.length > 0) = true :=
    decide_eq_true (List.length_pos.mpr hrows)
  have hpred : (dt.isVisible && decide (dt.rowCount > 0)) = true := by
    rw [hvis, hrc, hoff, h1, h2, h3]
    rfl
  have hfilt : dt ∈ (scanForTables ph.2 nowMs).filter
      (fun t => t.isVisible && decide (t.rowCount > 0)) :=
    List.mem_filter.mpr ⟨hdtmem, hpred⟩
  have hseen := phasesFold_mem nowMs phases hph hfilt hel ([], [])
  have hmem : e ∈ collectedIds (scanForTablesIncludingSubTabs phases nowMs) := by
    rw [← hrefid]
    exact (hinv.2 st.ref.refId).mp hseen
  exact List.count_eq_one_of_mem hinv.1 hmem

/-- A visible one-row table shared between two tab panels, refId 7. -/
def sharedTable : ScanTable :=
  { ref := ⟨7, ⟨[⟨[⟨false, str "v", str "v"⟩]⟩]⟩⟩,
    caption := none,
    prevSiblings := [],
    hasOffsetParent := true,
    displayStyle := str "block",
    visibilityStyle := str "visible" }

/-- Two collection phases that both see `sharedTable` (two tab panels
containing the identical table structure). -/
def dupPhases : List (Option Str × List ScanTable) :=
  [(none, [sharedTable]), (some (str "Tab 2"), [sharedTable])]

/-- C2 witness: the theorem applied to the two-phase run sharing one
table; exactly one entry for reference 7 is returned. -/
theorem scanForTablesIncludingSubTabs_dedup_witness :
    (collectedIds (scanForTablesIncludingSubTabs dupPhases 0)).count 7 = 1 :=
  (scanForTablesIncludingSubTabs_dedup dupPhases 0 7).2
    ⟨(none, [sharedTable]), by decide, sharedTable, by decide, rfl, rfl,
     by decide, by decide, by decide⟩

/-! ## CSV/PDF dispatch and the export orchestrator (`exportToCSV`,
`exportToPDF`, `exportDisplayedData`) -/

/-- The `format` field of `ExportConfig`. -/
inductive ExportFormat
  | pdf
  | csv
  | excel
deriving DecidableEq, Repr

/-- `ExportConfig` from the source. -/
structure ExportConfig where
  format : ExportFormat
  fileName : Str
  options : ExportOptions
  tables : List DisplayedTable
  tabName : Str
deriving DecidableEq, Repr

/-- A download side effect: a CSV file handed to `downloadCSV`, or a PDF
handed to `pdf.save` (the jsPDF page layout itself is not modelled, only
the save effect and its file name). -/
inductive Artifact
  | csvFile (fileName : Str) (content : Str)
  | pdfFile (fileName : Str)
deriving DecidableEq, Repr

/-- One character of `name.replace(/[^a-z0-9]/gi, '_')`. -/
def sanitizeChar (c : Char) : Char :=
  if ('a' ≤ c && c ≤ 'z') || ('A' ≤ c && c ≤ 'Z') || ('0' ≤ c && c ≤ '9') then c else '_'

/-- The source's file-name sanitization for per-table CSV files. -/
def sanitizeName (s : Str) : Str := s.map sanitizeChar

/-- The single-file branch of `exportToCSV`: per table, a leading blank
line from the second table on, the table's name line, its CSV content and
a trailing newline, accumulated in order. -/
def csvCombinedBody (options : ExportOptions) (tablesData : List TableData) : Str :=
  tablesData.enum.foldl
    (fun acc p =>
      acc ++ (if p.1 > 0 then ['\n'] else []) ++ p.2.name ++ ['\n']
        ++ createCSVContent p.2 options ++ ['\n'])
    []

/-- The optional metadata header block of the single-file CSV branch. -/
def metadataBlock (config : ExportConfig) (tablesData : List TableData) (now : Str) : Str :=
  if config.options.includeMetadata then
    config.tabName ++ str " - Exported Data" ++ ['\n']
      ++ str "Generated: " ++ now ++ ['\n']
      ++ str "Tables: " ++ natToStr tablesData.length ++ ['\n'] ++ ['\n']
  else []

/-- `exportToCSV` from the source: with `separateSheets` and more than one
table, one CSV file per table with a sanitized name suffix; otherwise one
CSV file holding the optional metadata block and all table sections. -/
def exportToCSV (tablesData : List TableData) (config : ExportConfig) (now : Str) :
    List Artifact :=
  if config.options.separateSheets && decide (tablesData.length > 1) then
    tablesData.map (fun td =>
      Artifact.csvFile (config.fileName ++ ['-'] ++ sanitizeName td.name ++ str ".csv")
        (createCSVContent td config.options))
  else
    [Artifact.csvFile (config.fileName ++ str ".csv")
      (metadataBlock config tablesData now ++ csvCombinedBody config.options tablesData)]

/-- `exportToPDF` from the source, reduced to its download effect:
`pdf.save(fileName + '.pdf')`. -/
def exportToPDF (_tablesData : List TableData) (config : ExportConfig) : List Artifact :=
  [Artifact.pdfFile (config.fileName ++ str ".pdf")]

/-- The `try` body of `exportDisplayedData`: filter the selected tables to
those with a live element, extract each (assigning the discovery name),
throw `No table data to export` when none remain, and dispatch on the
format (`excel` aliases the CSV path). `serializerError` abstracts a
failure thrown by the serialization stage; the pair returned is the
download effects and the error propagated, if any. -/
def exportBody (config : ExportConfig) (now : Str) (serializerError : Option Str) :
    List Artifact × Option Str :=
  let tablesData : List TableData :=
    config.tables.filterMap (fun t =>
      t.element.map (fun r =>
        { extractTableCore r.elem config.options now with name := t.name }))
  if tablesData.length = 0 then ([], some (str "No table data to export"))
  else
    match serializerError with
    | some e => ([], some e)
    | none =>
        match config.format with
        | ExportFormat.pdf => (exportToPDF tablesData config, none)
        | ExportFormat.csv => (exportToCSV tablesData config now, none)
        | ExportFormat.excel => (exportToCSV tablesData config now, none)

/-- The observable outcome of one `exportDisplayedData` call: the download
effects, the error re-thrown to the caller (if any), the exporting flag
while the body runs, and the flag after the `finally` block. -/
structure ExportRun where
  artifacts : List Artifact
  thrown : Option Str
  exportingDuring : Bool
  exportingAfter : Bool
deriving DecidableEq, Repr

/-- `exportDisplayedData` from the source: `setIsExporting(true)`, the
body, a `catch` that logs and re-throws (the error passes through
unchanged), and a `finally` that runs `setIsExporting(false)` on both
paths. -/
def exportDisplayedData (config : ExportConfig) (now : Str)
    (serializerError : Option Str) : ExportRun :=
  let during := true
  let body := exportBody config now serializerError
  { artifacts := body.1,
    thrown := body.2,
    exportingDuring := during,
    exportingAfter := false }

/-- C9: `exportDisplayedData` holds the exporting flag true while the body
runs, resets it to false on exit whatever the outcome, and propagates the
body's failure (if any) unchanged to the caller. -/
theorem exportDisplayedData_flag_and_rethrow (config : ExportConfig) (now : Str)
    (serializerError : Option Str) :
    (exportDisplayedData config now serializerError).exportingDuring = true ∧
    (exportDisplayedData config now serializerError).exportingAfter = false ∧
    (exportDisplayedData config now serializerError).thrown =
      (exportBody config now serializerError).2 :=
  ⟨rfl, rfl, rfl⟩

/-- C5: when every selected table has a null element reference, the export
rejects with the empty-export error and produces no download effect. -/
theorem exportDisplayedData_empty_rejects (config : ExportConfig) (now : Str)
    (serializerError : Option Str)
    (h : ∀ t ∈ config.tables, t.element = none) :
    (exportDisplayedData config now serializerError).thrown =
      some (str "No table data to export") ∧
    (exportDisplayedData config now serializerError).artifacts = [] := by
  have hnil : config.tables.filterMap (fun t =>
      t.element.map (fun r =>
        { extractTableCore r.elem config.options now with name := t.name })) = [] := by
    rw [List.filterMap_eq_nil_iff]
    intro t ht
    rw [h t ht]
    rfl
  constructor <;> simp [exportDisplayedData, exportBody, hnil]

/-- A selected table whose element reference is null. -/
def nullTable : DisplayedTable :=
  { id := str "t0", name := str "Gone", element := none,
    rowCount := 0, columnCount := 0, isVisible := false }

/-- Options for the empty-export witness. -/
def nullOptions : ExportOptions :=
  { includeHeaders := true, preserveFormatting := false, includeRowNumbers := false,
    separateSheets := false, includeMetadata := false }

/-- A config whose tables list holds only null-element entries. -/
def nullConfig : ExportConfig :=
  { format := ExportFormat.csv, fileName := str "export", options := nullOptions,
    tables := [nullTable], tabName := str "Sales" }

/-- C5 witness: the theorem applied to a concrete config with one
null-element table. -/
theorem exportDisplayedData_empty_rejects_witness :
    (exportDisplayedData nullConfig [] none).thrown =
      some (str "No table data to export") ∧
    (exportDisplayedData nullConfig [] none).artifacts = [] :=
  exportDisplayedData_empty_rejects nullConfig [] none (by decide)

/-- Table A of the end-to-end CSV scenario. -/
def tableA : TableData :=
  { name := str "Table A", headers := [str "Name", str "Revenue"],
    rows := [[str "Alice", str "1,200"], [str "Bob", str "800"]], metadata := none }

/-- Table B of the end-to-end CSV scenario. -/
def tableB : TableData :=
  { name := str "Table B", headers := [str "Month", str "Count"],
    rows := [[str "Jan", str "5"]], metadata := none }

/-- Options of the scenario: headers on, separate sheets off, metadata off. -/
def scenarioOptions : ExportOptions :=
  { includeHeaders := true, preserveFormatting := false, includeRowNumbers := false,
    separateSheets := false, includeMetadata := false }

/-- Config of the scenario. -/
def scenarioConfig : ExportConfig :=
  { format := ExportFormat.csv, fileName := str "export", options := scenarioOptions,
    tables := [], tabName := str "Sales" }

/-- C4: serializing Table A and Table B with `separateSheets=false`,
`includeHeaders=true`, `includeMetadata=false` produces one CSV document
whose lines are, in order: `Table A`, `Name,Revenue`, `Alice,"1,200"`,
`Bob,800`, a blank line, `Table B`, `Month,Count`, `Jan,5` (and a final
empty line from the trailing newline). -/
theorem exportToCSV_two_table_scenario :
    exportToCSV [tableA, tableB] scenarioConfig [] =
      [Artifact.csvFile (str "export.csv")
        (str "Table A\nName,Revenue\nAlice,\"1,200\"\nBob,800\n\nTable B\nMonth,Count\nJan,5\n")] ∧
    (str "Table A\nName,Revenue\nAlice,\"1,200\"\nBob,800\n\nTable B\nMonth,Count\nJan,5\n").splitOn '\n' =
      [str "Table A", str "Name,Revenue", str "Alice,\"1,200\"", str "Bob,800", [],
       str "Table B", str "Month,Count", str "Jan,5", []] := by
  decide

end DisplayedExport
